import Mathlib

/-!
Verification of the ciborium-rpc message data model and v0 wire format.

This development embeds, in Lean, the Rust sources of the `ciborium-rpc`
crate:

* `src/proto/mod.rs` — the typed message model (`MethodID`, `RequestID`,
  `Params`, `ErrorValue`, `Request`, `Response`) and its conversions to and
  from the dynamic CBOR `Value`;
* `src/proto/v0.rs` — the serde-derived v0 wire framing (`RPCMsg`,
  `Msg`, `RequestMsg`, `ResponseMsg`, `ResultMsg`) and the
  client/server transport operations built on it;
* `src/error.rs` — the two-layer error taxonomy (`ProtocolError`,
  `TransportError`) and the conversions from the underlying encoder's
  error type.

The underlying dynamic-value encoder/decoder (the `ciborium` crate) is an
external collaborator of the repository; its byte-level CBOR
encoding/decoding (RFC 8949) is modelled here explicitly so that claims
about the produced byte sequences can be stated and proved.  Machine
integers (`u64`, `i64`) are modelled as `Nat`/`Int` with explicit range
conditions; floating-point payloads are modelled as their IEEE-754 bit
patterns (a CBOR float is carried and compared as an opaque 64-bit
pattern).
-/

namespace RPC

/-- Dynamic CBOR value, mirroring `ciborium::value::Value`.  `int` carries the
integer as a mathematical `Int` (ciborium's `Integer` is range-restricted to
`[-2^64, 2^64)`, captured by `validV` below); `float` carries the IEEE-754
bit pattern of the `f64`; `bytes` carries the byte string as a list of
byte-sized naturals. -/
inductive Value where
  | int (i : Int)
  | bytes (b : List Nat)
  | float (bits : Nat)
  | text (s : String)
  | bool (b : Bool)
  | null
  | tag (n : Nat) (v : Value)
  | arr (xs : List Value)
  | map (ps : List (Value × Value))

/-! ### Big-endian byte strings -/

/-- Big-endian encoding of `n` into exactly `k` bytes. -/
def writeBE : Nat → Nat → List Nat
  | 0, _ => []
  | k + 1, n => writeBE k (n / 256) ++ [n % 256]

/-- Big-endian reading of a byte list into a natural number. -/
def readBE (bs : List Nat) : Nat :=
  bs.foldl (fun acc b => acc * 256 + b) 0

theorem writeBE_length (k n : Nat) : (writeBE k n).length = k := by
  induction k generalizing n with
  | zero => rfl
  | succ k ih => simp [writeBE, ih]

theorem readBE_writeBE (k n : Nat) (h : n < 256 ^ k) :
    readBE (writeBE k n) = n := by
  induction k generalizing n with
  | zero => simp at h; simp [writeBE, readBE, h]
  | succ k ih =>
    have hdiv : n / 256 < 256 ^ k := by
      rw [Nat.div_lt_iff_lt_mul (by omega)]
      calc n < 256 ^ (k + 1) := h
        _ = 256 ^ k * 256 := by ring
    simp only [writeBE, readBE, List.foldl_append, List.foldl_cons, List.foldl_nil]
    have := ih (n / 256) hdiv
    simp only [readBE] at this
    rw [this]
    omega

/-! ### CBOR head (major type + argument) -/

/-- Minimal-length CBOR head for major type `m` and argument `n`, as
produced by the `ciborium` serializer. -/
def encodeHead (m n : Nat) : List Nat :=
  if n < 24 then [m * 32 + n]
  else if n < 256 then [m * 32 + 24, n]
  else if n < 65536 then (m * 32 + 25) :: writeBE 2 n
  else if n < 4294967296 then (m * 32 + 26) :: writeBE 4 n
  else (m * 32 + 27) :: writeBE 8 n

/-- Additional-information nibble that `encodeHead` uses for argument `n`. -/
def aiOf (n : Nat) : Nat :=
  if n < 24 then n
  else if n < 256 then 24
  else if n < 65536 then 25
  else if n < 4294967296 then 26
  else 27

/-- Parse a CBOR head: returns `(major, additional-info, argument, rest)`. -/
def parseHead : List Nat → Option (Nat × Nat × Nat × List Nat)
  | [] => none
  | b :: bs =>
    let m := b / 32
    let ai := b % 32
    if ai < 24 then some (m, ai, ai, bs)
    else if ai = 24 then
      match bs with
      | n :: r => some (m, 24, n, r)
      | [] => none
    else if ai = 25 then
      if 2 ≤ bs.length then some (m, 25, readBE (bs.take 2), bs.drop 2) else none
    else if ai = 26 then
      if 4 ≤ bs.length then some (m, 26, readBE (bs.take 4), bs.drop 4) else none
    else if ai = 27 then
      if 8 ≤ bs.length then some (m, 27, readBE (bs.take 8), bs.drop 8) else none
    else none

theorem take_append_of_length {α : Type} (xs ys : List α) (k : Nat)
    (h : xs.length = k) : (xs ++ ys).take k = xs ∧ (xs ++ ys).drop k = ys := by
  subst h
  exact ⟨by simp, by simp⟩

theorem parseHead_encodeHead (m n : Nat) (hm : m < 8) (hn : n < 2 ^ 64) (rest : List Nat) :
    parseHead (encodeHead m n ++ rest) = some (m, aiOf n, n, rest) := by
  unfold encodeHead aiOf
  by_cases h24 : n < 24
  · simp only [if_pos h24, List.cons_append, List.nil_append, parseHead]
    have hdiv : (m * 32 + n) / 32 = m := by omega
    have hmod : (m * 32 + n) % 32 = n := by omega
    simp [hdiv, hmod, h24]
  · by_cases h256 : n < 256
    · simp only [if_neg h24, if_pos h256, List.cons_append, List.nil_append, parseHead]
      have hdiv : (m * 32 + 24) / 32 = m := by omega
      have hmod : (m * 32 + 24) % 32 = 24 := by omega
      simp [hdiv, hmod]
    · by_cases h2 : n < 65536
      · simp only [if_neg h24, if_neg h256, if_pos h2, List.cons_append, parseHead]
        have hdiv : (m * 32 + 25) / 32 = m := by omega
        have hmod : (m * 32 + 25) % 32 = 25 := by omega
        have hlen : (writeBE 2 n).length = 2 := writeBE_length 2 n
        obtain ⟨ht, hd⟩ := take_append_of_length (writeBE 2 n) rest 2 hlen
        have hble : 2 ≤ (writeBE 2 n ++ rest).length := by
          simp only [List.length_append, hlen]; omega
        simp only [List.length_append, hlen] at hble
        simp [hdiv, hmod, ht, hd, readBE_writeBE 2 n (by omega)] <;> omega
      · by_cases h4 : n < 4294967296
        · simp only [if_neg h24, if_neg h256, if_neg h2, if_pos h4, List.cons_append, parseHead]
          have hdiv : (m * 32 + 26) / 32 = m := by omega
          have hmod : (m * 32 + 26) % 32 = 26 := by omega
          have hlen : (writeBE 4 n).length = 4 := writeBE_length 4 n
          obtain ⟨ht, hd⟩ := take_append_of_length (writeBE 4 n) rest 4 hlen
          have hble : 4 ≤ (writeBE 4 n ++ rest).length := by
            simp only [List.length_append, hlen]; omega
          simp only [List.length_append, hlen] at hble
          simp [hdiv, hmod, ht, hd, readBE_writeBE 4 n (by omega)] <;> omega
        · simp only [if_neg h24, if_neg h256, if_neg h2, if_neg h4, List.cons_append, parseHead]
          have hdiv : (m * 32 + 27) / 32 = m := by omega
          have hmod : (m * 32 + 27) % 32 = 27 := by omega
          have hlen : (writeBE 8 n).length = 8 := writeBE_length 8 n
          obtain ⟨ht, hd⟩ := take_append_of_length (writeBE 8 n) rest 8 hlen
          have hble : 8 ≤ (writeBE 8 n ++ rest).length := by
            simp only [List.length_append, hlen]; omega
          have hn8 : n < 256 ^ 8 := by
            have : (256 : Nat) ^ 8 = 2 ^ 64 := by norm_num
            omega
          simp only [List.length_append, hlen] at hble
          simp [hdiv, hmod, ht, hd, readBE_writeBE 8 n hn8] <;> omega

theorem parseHead_float (bits : Nat) (h : bits < 2 ^ 64) (rest : List Nat) :
    parseHead (251 :: writeBE 8 bits ++ rest) = some (7, 27, bits, rest) := by
  have hlen : (writeBE 8 bits).length = 8 := writeBE_length 8 bits
  obtain ⟨ht, hd⟩ := take_append_of_length (writeBE 8 bits) rest 8 hlen
  have hble : 8 ≤ (writeBE 8 bits ++ rest).length := by
    simp only [List.length_append, hlen]; omega
  have hb : bits < 256 ^ 8 := by
    have : (256 : Nat) ^ 8 = 2 ^ 64 := by norm_num
    omega
  simp only [List.length_append, hlen] at hble
  simp [parseHead, ht, hd, readBE_writeBE 8 bits hb] <;> omega

/-! ### UTF-8 text payloads

CBOR text strings carry the UTF-8 encoding of the string; the byte-level
encoding of `Value.text` is modelled with an explicit character-wise UTF-8
codec over the string's character list. -/

/-- UTF-8 encoding of a single character (1 to 4 bytes). -/
def utf8EncChar (c : Char) : List Nat :=
  let v := c.toNat
  if v < 128 then [v]
  else if v < 2048 then [192 + v / 64, 128 + v % 64]
  else if v < 65536 then [224 + v / 4096, 128 + v / 64 % 64, 128 + v % 64]
  else [240 + v / 262144, 128 + v / 4096 % 64, 128 + v / 64 % 64, 128 + v % 64]

/-- UTF-8 encoding of a character list. -/
def utf8Enc : List Char → List Nat
  | [] => []
  | c :: cs => utf8EncChar c ++ utf8Enc cs

/-- Read one UTF-8 continuation byte onto the code-point accumulator `v`. -/
def utf8Cont1 (v : Nat) : List Nat → Option (Nat × List Nat)
  | b1 :: bs => some (v * 64 + (b1 - 128), bs)
  | [] => none

/-- Read two UTF-8 continuation bytes onto the code-point accumulator `v`. -/
def utf8Cont2 (v : Nat) : List Nat → Option (Nat × List Nat)
  | b1 :: b2 :: bs => some ((v * 64 + (b1 - 128)) * 64 + (b2 - 128), bs)
  | _ => none

/-- Read three UTF-8 continuation bytes onto the code-point accumulator `v`. -/
def utf8Cont3 (v : Nat) : List Nat → Option (Nat × List Nat)
  | b1 :: b2 :: b3 :: bs =>
    some (((v * 64 + (b1 - 128)) * 64 + (b2 - 128)) * 64 + (b3 - 128), bs)
  | _ => none

/-- Decode one UTF-8 character from the head of a byte list. -/
def utf8DecChar (bs : List Nat) : Option (Char × List Nat) :=
  match bs with
  | [] => none
  | b :: bs =>
    if b < 128 then some (Char.ofNat b, bs)
    else if b < 192 then none
    else if b < 224 then (utf8Cont1 (b - 192) bs).map (fun p => (Char.ofNat p.1, p.2))
    else if b < 240 then (utf8Cont2 (b - 224) bs).map (fun p => (Char.ofNat p.1, p.2))
    else if b < 248 then (utf8Cont3 (b - 240) bs).map (fun p => (Char.ofNat p.1, p.2))
    else none

/-- Fuel-driven UTF-8 decoding of a whole byte list into a character list
(one unit of fuel per decoded character). -/
def utf8DecF : Nat → List Nat → Option (List Char)
  | 0, bs => if bs = [] then some [] else none
  | fuel + 1, bs =>
    if bs = [] then some []
    else
      match utf8DecChar bs with
      | some (c, r) => (utf8DecF fuel r).map (fun cs => c :: cs)
      | none => none

/-- UTF-8 decoding of a whole byte list (fuel instantiated with the list
length, which always suffices since each character consumes at least one
byte). -/
def utf8DecList (bs : List Nat) : Option (List Char) :=
  utf8DecF bs.length bs

theorem utf8DecChar_encChar (c : Char) (rest : List Nat) :
    utf8DecChar (utf8EncChar c ++ rest) = some (c, rest) := by
  have hofNat : Char.ofNat c.toNat = c := Char.ofNat_toNat c
  have hval : c.toNat < 1114112 := by
    have h := c.valid
    simp only [UInt32.isValidChar, Nat.isValidChar, Char.toNat] at h ⊢
    omega
  unfold utf8EncChar
  by_cases h1 : c.toNat < 128
  · simp only [if_pos h1, List.cons_append, List.nil_append, utf8DecChar.eq_2, if_pos h1,
      hofNat]
  · by_cases h2 : c.toNat < 2048
    · have hb : ¬(192 + c.toNat / 64 < 128) := by omega
      have hb' : ¬(192 + c.toNat / 64 < 192) := by omega
      have hb'' : 192 + c.toNat / 64 < 224 := by omega
      have harith : (192 + c.toNat / 64 - 192) * 64 + (128 + c.toNat % 64 - 128) = c.toNat := by
        omega
      simp only [if_neg h1, if_pos h2, List.cons_append, List.nil_append, utf8DecChar.eq_2,
        if_neg hb, if_neg hb', if_pos hb'', utf8Cont1, harith, hofNat, Option.map_some']
    · by_cases h3 : c.toNat < 65536
      · have hb : ¬(224 + c.toNat / 4096 < 128) := by omega
        have hb' : ¬(224 + c.toNat / 4096 < 192) := by omega
        have hb2 : ¬(224 + c.toNat / 4096 < 224) := by omega
        have hb3 : 224 + c.toNat / 4096 < 240 := by omega
        have harith : ((224 + c.toNat / 4096 - 224) * 64 + (128 + c.toNat / 64 % 64 - 128)) * 64
            + (128 + c.toNat % 64 - 128) = c.toNat := by
          omega
        simp only [if_neg h1, if_neg h2, if_pos h3, List.cons_append, List.nil_append,
          utf8DecChar.eq_2, if_neg hb, if_neg hb', if_neg hb2, if_pos hb3, utf8Cont2,
          harith, hofNat, Option.map_some']
      · have hb : ¬(240 + c.toNat / 262144 < 128) := by omega
        have hb' : ¬(240 + c.toNat / 262144 < 192) := by omega
        have hb2 : ¬(240 + c.toNat / 262144 < 224) := by omega
        have hb3 : ¬(240 + c.toNat / 262144 < 240) := by omega
        have hb4 : 240 + c.toNat / 262144 < 248 := by omega
        have harith : (((240 + c.toNat / 262144 - 240) * 64 +
            (128 + c.toNat / 4096 % 64 - 128)) * 64 +
            (128 + c.toNat / 64 % 64 - 128)) * 64 + (128 + c.toNat % 64 - 128) = c.toNat := by
          omega
        simp only [if_neg h1, if_neg h2, if_neg h3, List.cons_append, List.nil_append,
          utf8DecChar.eq_2, if_neg hb, if_neg hb', if_neg hb2, if_neg hb3, if_pos hb4,
          utf8Cont3, harith, hofNat, Option.map_some']

theorem utf8EncChar_ne_nil (c : Char) : utf8EncChar c ≠ [] := by
  simp only [utf8EncChar]
  split
  · simp
  · split
    · simp
    · split <;> simp

theorem utf8DecF_utf8Enc (cs : List Char) (fuel : Nat) (hf : cs.length ≤ fuel) :
    utf8DecF fuel (utf8Enc cs) = some cs := by
  induction cs generalizing fuel with
  | nil => cases fuel <;> simp [utf8Enc, utf8DecF]
  | cons c cs ih =>
    obtain ⟨f, rfl⟩ : ∃ f, fuel = f + 1 := ⟨fuel - 1, by simp at hf; omega⟩
    have hne : utf8EncChar c ++ utf8Enc cs ≠ [] := by
      cases hE : utf8EncChar c with
      | nil => exact absurd hE (utf8EncChar_ne_nil c)
      | cons a l => simp
    show utf8DecF (f + 1) (utf8EncChar c ++ utf8Enc cs) = _
    simp only [utf8DecF, if_neg hne, utf8DecChar_encChar c (utf8Enc cs),
      ih f (by simp at hf; omega), Option.map_some']

theorem utf8EncChar_length_pos (c : Char) : 1 ≤ (utf8EncChar c).length := by
  cases hE : utf8EncChar c with
  | nil => exact absurd hE (utf8EncChar_ne_nil c)
  | cons a l => simp

theorem length_le_utf8Enc (cs : List Char) : cs.length ≤ (utf8Enc cs).length := by
  induction cs with
  | nil => simp [utf8Enc]
  | cons c cs ih =>
    have := utf8EncChar_length_pos c
    simp only [utf8Enc, List.length_append, List.length_cons]
    omega

theorem utf8DecList_utf8Enc (cs : List Char) : utf8DecList (utf8Enc cs) = some cs :=
  utf8DecF_utf8Enc cs (utf8Enc cs).length (length_le_utf8Enc cs)

/-! ### CBOR encoding and decoding of dynamic values

The byte-level codec models the external `ciborium` encoder/decoder (the
collaborator interface of §6 of the specification): `encodeV` produces the
canonical minimal-length CBOR encoding that `ciborium::ser` emits, and
`decodeV` parses one value from the head of a byte list.  The decoder is
fuel-indexed (structural recursion on the fuel); any fuel at least the
node-count of the encoded value suffices, and the top-level entry point
instantiates the fuel from the input length. -/

mutual
def encodeV : Value → List Nat
  | .int i => if 0 ≤ i then encodeHead 0 i.toNat else encodeHead 1 (-(i + 1)).toNat
  | .bytes b => encodeHead 2 b.length ++ b
  | .text s => encodeHead 3 (utf8Enc s.data).length ++ utf8Enc s.data
  | .float bits => 251 :: writeBE 8 bits
  | .bool false => [244]
  | .bool true => [245]
  | .null => [246]
  | .tag n v => encodeHead 6 n ++ encodeV v
  | .arr xs => encodeHead 4 xs.length ++ encodeVList xs
  | .map ps => encodeHead 5 ps.length ++ encodeVPairs ps

def encodeVList : List Value → List Nat
  | [] => []
  | v :: vs => encodeV v ++ encodeVList vs

def encodeVPairs : List (Value × Value) → List Nat
  | [] => []
  | (k, v) :: ps => encodeV k ++ encodeV v ++ encodeVPairs ps
end

/- Range constraints that every `ciborium` value satisfies by construction
in Rust (`Integer` is within `[-2^64, 2^64)`, lengths and tags fit in
`u64`, bytes are byte-sized). -/
mutual
def validV : Value → Bool
  | .int i => decide (-(2 ^ 64 : Int) ≤ i) && decide (i < (2 ^ 64 : Int))
  | .bytes b => decide (b.length < 2 ^ 64) && b.all (fun x => decide (x < 256))
  | .float bits => decide (bits < 2 ^ 64)
  | .text s => decide ((utf8Enc s.data).length < 2 ^ 64)
  | .bool _ => true
  | .null => true
  | .tag n v => decide (n < 2 ^ 64) && validV v
  | .arr xs => decide (xs.length < 2 ^ 64) && validVList xs
  | .map ps => decide (ps.length < 2 ^ 64) && validVPairs ps

def validVList : List Value → Bool
  | [] => true
  | v :: vs => validV v && validVList vs

def validVPairs : List (Value × Value) → Bool
  | [] => true
  | (k, v) :: ps => validV k && validV v && validVPairs ps
end

/- Node-count measure used as a fuel bound for the decoder. -/
mutual
def sizeV : Value → Nat
  | .int _ => 1
  | .bytes _ => 1
  | .float _ => 1
  | .text _ => 1
  | .bool _ => 1
  | .null => 1
  | .tag _ v => sizeV v + 1
  | .arr xs => sizeVList xs + 1
  | .map ps => sizeVPairs ps + 1

def sizeVList : List Value → Nat
  | [] => 1
  | v :: vs => sizeV v + sizeVList vs + 1

def sizeVPairs : List (Value × Value) → Nat
  | [] => 1
  | (k, v) :: ps => sizeV k + sizeV v + sizeVPairs ps + 1
end

mutual
def decodeV : Nat → List Nat → Option (Value × List Nat)
  | 0, _ => none
  | fuel + 1, bs =>
    match parseHead bs with
    | none => none
    | some (m, ai, n, rest) =>
      if m = 0 then some (.int (Int.ofNat n), rest)
      else if m = 1 then some (.int (-1 - Int.ofNat n), rest)
      else if m = 2 then
        if n ≤ rest.length then some (.bytes (rest.take n), rest.drop n) else none
      else if m = 3 then
        if n ≤ rest.length then
          match utf8DecList (rest.take n) with
          | some cs => some (.text (String.mk cs), rest.drop n)
          | none => none
        else none
      else if m = 4 then
        match decodeVItems fuel n rest with
        | some (xs, r) => some (.arr xs, r)
        | none => none
      else if m = 5 then
        match decodeVPairsD fuel n rest with
        | some (ps, r) => some (.map ps, r)
        | none => none
      else if m = 6 then
        match decodeV fuel rest with
        | some (v, r) => some (.tag n v, r)
        | none => none
      else
        if ai = 20 then some (.bool false, rest)
        else if ai = 21 then some (.bool true, rest)
        else if ai = 22 then some (.null, rest)
        else if ai = 27 then some (.float n, rest)
        else none

def decodeVItems : Nat → Nat → List Nat → Option (List Value × List Nat)
  | 0, _, _ => none
  | _ + 1, 0, bs => some ([], bs)
  | fuel + 1, n + 1, bs =>
    match decodeV fuel bs with
    | some (v, r) =>
      match decodeVItems fuel n r with
      | some (xs, r2) => some (v :: xs, r2)
      | none => none
    | none => none

def decodeVPairsD : Nat → Nat → List Nat → Option (List (Value × Value) × List Nat)
  | 0, _, _ => none
  | _ + 1, 0, bs => some ([], bs)
  | fuel + 1, n + 1, bs =>
    match decodeV fuel bs with
    | some (k, r) =>
      match decodeV fuel r with
      | some (v, r2) =>
        match decodeVPairsD fuel n r2 with
        | some (ps, r3) => some ((k, v) :: ps, r3)
        | none => none
      | none => none
    | none => none
end

theorem sizeV_pos (v : Value) : 1 ≤ sizeV v := by
  cases v <;> simp [sizeV]

theorem sizeVList_pos (xs : List Value) : 1 ≤ sizeVList xs := by
  cases xs <;> simp [sizeVList]

theorem sizeVPairs_pos (ps : List (Value × Value)) : 1 ≤ sizeVPairs ps := by
  cases ps with
  | nil => simp [sizeVPairs]
  | cons p ps => obtain ⟨k, v⟩ := p; simp [sizeVPairs]

theorem encodeHead_length_pos (m n : Nat) : 1 ≤ (encodeHead m n).length := by
  unfold encodeHead
  by_cases h1 : n < 24
  · simp [h1]
  · by_cases h2 : n < 256
    · simp [h1, h2]
    · by_cases h3 : n < 65536
      · simp [h1, h2, h3]
      · by_cases h4 : n < 4294967296 <;> simp [h1, h2, h3, h4]

/-- Main roundtrip invariant of the byte-level codec: decoding the encoding
of any valid value (with any fuel at least its node count) returns the value
and the unconsumed remainder. -/
theorem decodeV_encodeV (fuel : Nat) :
    (∀ v rest, validV v = true → sizeV v ≤ fuel →
      decodeV fuel (encodeV v ++ rest) = some (v, rest)) ∧
    (∀ xs rest, validVList xs = true → sizeVList xs ≤ fuel →
      decodeVItems fuel xs.length (encodeVList xs ++ rest) = some (xs, rest)) ∧
    (∀ ps rest, validVPairs ps = true → sizeVPairs ps ≤ fuel →
      decodeVPairsD fuel ps.length (encodeVPairs ps ++ rest) = some (ps, rest)) := by
  induction fuel with
  | zero =>
    refine ⟨fun v rest hv hs => ?_, fun xs rest hv hs => ?_, fun ps rest hv hs => ?_⟩
    · exact absurd hs (by have := sizeV_pos v; omega)
    · exact absurd hs (by have := sizeVList_pos xs; omega)
    · exact absurd hs (by have := sizeVPairs_pos ps; omega)
  | succ fuel ih =>
    refine ⟨fun v rest hv hs => ?_, fun xs rest hv hs => ?_, fun ps rest hv hs => ?_⟩
    · cases v with
      | int i =>
        simp only [validV, Bool.and_eq_true, decide_eq_true_eq] at hv
        obtain ⟨hlo, hhi⟩ := hv
        by_cases hnn : 0 ≤ i
        · have htn : i.toNat < 2 ^ 64 := by omega
          simp only [encodeV, if_pos hnn, decodeV,
            parseHead_encodeHead 0 i.toNat (by omega) htn rest]
          have hofNat : Int.ofNat i.toNat = i := by
            simp only [Int.ofNat_eq_coe]
            exact Int.toNat_of_nonneg hnn
          simp [hofNat] <;> omega
        · have htn : (-(i + 1)).toNat < 2 ^ 64 := by omega
          simp only [encodeV, if_neg hnn, decodeV,
            parseHead_encodeHead 1 (-(i + 1)).toNat (by omega) htn rest]
          have hofNat : -1 - Int.ofNat (-(i + 1)).toNat = i := by
            simp only [Int.ofNat_eq_coe]
            omega
          simp [hofNat] <;> omega
      | bytes b =>
        simp only [validV, Bool.and_eq_true, decide_eq_true_eq] at hv
        obtain ⟨hlen, _⟩ := hv
        obtain ⟨ht, hd⟩ := take_append_of_length b rest b.length rfl
        simp only [encodeV, List.append_assoc, decodeV,
          parseHead_encodeHead 2 b.length (by omega) hlen (b ++ rest)]
        simp [ht, hd, List.length_append]
      | text s =>
        simp only [validV, decide_eq_true_eq] at hv
        obtain ⟨ht, hd⟩ :=
          take_append_of_length (utf8Enc s.data) rest (utf8Enc s.data).length rfl
        simp only [encodeV, List.append_assoc, decodeV,
          parseHead_encodeHead 3 (utf8Enc s.data).length (by omega) hv
            (utf8Enc s.data ++ rest)]
        simp [ht, hd, List.length_append, utf8DecList_utf8Enc]
      | float bits =>
        simp only [validV, decide_eq_true_eq] at hv
        simp only [encodeV, List.cons_append, decodeV]
        rw [show (251 :: (writeBE 8 bits ++ rest)) = 251 :: writeBE 8 bits ++ rest from rfl,
          parseHead_float bits hv rest]
        simp
      | bool b =>
        cases b <;> simp [encodeV, decodeV, parseHead]
      | null =>
        simp [encodeV, decodeV, parseHead]
      | tag n v =>
        simp only [validV, Bool.and_eq_true, decide_eq_true_eq] at hv
        obtain ⟨hn, hvv⟩ := hv
        have hsv : sizeV v ≤ fuel := by simp only [sizeV] at hs; omega
        simp only [encodeV, List.append_assoc, decodeV,
          parseHead_encodeHead 6 n (by omega) hn (encodeV v ++ rest)]
        simp [ih.1 v rest hvv hsv]
      | arr xs =>
        simp only [validV, Bool.and_eq_true, decide_eq_true_eq] at hv
        obtain ⟨hn, hvv⟩ := hv
        have hsv : sizeVList xs ≤ fuel := by simp only [sizeV] at hs; omega
        simp only [encodeV, List.append_assoc, decodeV,
          parseHead_encodeHead 4 xs.length (by omega) hn (encodeVList xs ++ rest)]
        simp [ih.2.1 xs rest hvv hsv]
      | map ps =>
        simp only [validV, Bool.and_eq_true, decide_eq_true_eq] at hv
        obtain ⟨hn, hvv⟩ := hv
        have hsv : sizeVPairs ps ≤ fuel := by simp only [sizeV] at hs; omega
        simp only [encodeV, List.append_assoc, decodeV,
          parseHead_encodeHead 5 ps.length (by omega) hn (encodeVPairs ps ++ rest)]
        simp [ih.2.2 ps rest hvv hsv]
    · cases xs with
      | nil => simp [encodeVList, decodeVItems]
      | cons v vs =>
        simp only [validVList, Bool.and_eq_true] at hv
        obtain ⟨hv1, hv2⟩ := hv
        have h1 : sizeV v ≤ fuel := by
          have := sizeVList_pos vs; simp only [sizeVList] at hs; omega
        have h2 : sizeVList vs ≤ fuel := by
          have := sizeV_pos v; simp only [sizeVList] at hs; omega
        simp only [encodeVList, List.append_assoc, List.length_cons, decodeVItems]
        rw [ih.1 v (encodeVList vs ++ rest) hv1 h1]
        simp [ih.2.1 vs rest hv2 h2]
    · cases ps with
      | nil => simp [encodeVPairs, decodeVPairsD]
      | cons p ps =>
        obtain ⟨k, v⟩ := p
        simp only [validVPairs, Bool.and_eq_true] at hv
        obtain ⟨⟨hv1, hv2⟩, hv3⟩ := hv
        have h1 : sizeV k ≤ fuel := by
          have := sizeV_pos v; have := sizeVPairs_pos ps
          simp only [sizeVPairs] at hs; omega
        have h2 : sizeV v ≤ fuel := by
          have := sizeV_pos k; have := sizeVPairs_pos ps
          simp only [sizeVPairs] at hs; omega
        have h3 : sizeVPairs ps ≤ fuel := by
          have := sizeV_pos k; have := sizeV_pos v
          simp only [sizeVPairs] at hs; omega
        simp only [encodeVPairs, List.append_assoc, List.length_cons, decodeVPairsD]
        simp [ih.1 k (encodeV v ++ (encodeVPairs ps ++ rest)) hv1 h1,
          ih.1 v (encodeVPairs ps ++ rest) hv2 h2, ih.2.2 ps rest hv3 h3]

theorem size_le_encode_aux (fuel : Nat) :
    (∀ v : Value, sizeV v ≤ fuel → sizeV v + 1 ≤ 3 * (encodeV v).length) ∧
    (∀ xs : List Value, sizeVList xs ≤ fuel →
      sizeVList xs ≤ 3 * (encodeVList xs).length + 1) ∧
    (∀ ps : List (Value × Value), sizeVPairs ps ≤ fuel →
      sizeVPairs ps ≤ 3 * (encodeVPairs ps).length + 1) := by
  induction fuel with
  | zero =>
    refine ⟨fun v hs => ?_, fun xs hs => ?_, fun ps hs => ?_⟩
    · exact absurd hs (by have := sizeV_pos v; omega)
    · exact absurd hs (by have := sizeVList_pos xs; omega)
    · exact absurd hs (by have := sizeVPairs_pos ps; omega)
  | succ fuel ih =>
    refine ⟨fun v hs => ?_, fun xs hs => ?_, fun ps hs => ?_⟩
    · cases v with
      | int i =>
        simp only [sizeV, encodeV]
        split <;> have := encodeHead_length_pos 0 i.toNat <;>
          have := encodeHead_length_pos 1 (-(i + 1)).toNat <;> omega
      | bytes b =>
        have := encodeHead_length_pos 2 b.length
        simp only [sizeV, encodeV, List.length_append]
        omega
      | text s =>
        have := encodeHead_length_pos 3 (utf8Enc s.data).length
        simp only [sizeV, encodeV, List.length_append]
        omega
      | float bits =>
        simp [sizeV, encodeV, writeBE_length]
      | bool b => cases b <;> simp [sizeV, encodeV]
      | null => simp [sizeV, encodeV]
      | tag n v =>
        have hh := encodeHead_length_pos 6 n
        have hrec := ih.1 v (by simp only [sizeV] at hs; omega)
        simp only [sizeV, encodeV, List.length_append]
        omega
      | arr xs =>
        have hh := encodeHead_length_pos 4 xs.length
        have hrec := ih.2.1 xs (by simp only [sizeV] at hs; omega)
        simp only [sizeV, encodeV, List.length_append]
        omega
      | map ps =>
        have hh := encodeHead_length_pos 5 ps.length
        have hrec := ih.2.2 ps (by simp only [sizeV] at hs; omega)
        simp only [sizeV, encodeV, List.length_append]
        omega
    · cases xs with
      | nil => simp [sizeVList, encodeVList]
      | cons v vs =>
        have hp1 := sizeV_pos v
        have hp2 := sizeVList_pos vs
        have h1 := ih.1 v (by simp only [sizeVList] at hs; omega)
        have h2 := ih.2.1 vs (by simp only [sizeVList] at hs; omega)
        simp only [sizeVList, encodeVList, List.length_append]
        omega
    · cases ps with
      | nil => simp [sizeVPairs, encodeVPairs]
      | cons p ps =>
        obtain ⟨k, v⟩ := p
        have hp1 := sizeV_pos k
        have hp2 := sizeV_pos v
        have hp3 := sizeVPairs_pos ps
        have h1 := ih.1 k (by simp only [sizeVPairs] at hs; omega)
        have h2 := ih.1 v (by simp only [sizeVPairs] at hs; omega)
        have h3 := ih.2.2 ps (by simp only [sizeVPairs] at hs; omega)
        simp only [sizeVPairs, encodeVPairs, List.length_append]
        omega

theorem sizeV_le_encodeV (v : Value) : sizeV v + 1 ≤ 3 * (encodeV v).length :=
  (size_le_encode_aux (sizeV v)).1 v (Nat.le_refl _)

/-- One-shot CBOR decoding of a value from the head of a byte list,
modelling `ciborium::de::from_reader` at the dynamic-value level (the
remainder of the input is left unconsumed, as the reader does).  The fuel
`3 * bs.length` dominates the node count of any value encoded in `bs`. -/
def decodeValue (bs : List Nat) : Option (Value × List Nat) :=
  decodeV (3 * bs.length) bs

/-- Byte-level roundtrip at the top-level entry point. -/
theorem decodeValue_encodeV (v : Value) (hv : validV v = true) (rest : List Nat) :
    decodeValue (encodeV v ++ rest) = some (v, rest) := by
  have hle := sizeV_le_encodeV v
  apply (decodeV_encodeV (3 * (encodeV v ++ rest).length)).1 v rest hv
  simp only [List.length_append]
  omega

/-! ### Error taxonomy (`src/error.rs`)

`ProtocolError` and `TransportError` mirror the two Rust enums.  `IoErr`
stands for `std::io::Error` (opaque to this layer: only passed through),
and `DeError`/`SerError` mirror `ciborium::de::Error` and
`ciborium::ser::Error` instantiated at the I/O error type, which is how the
repository uses them. -/

inductive ProtocolError where
  | InvalidMethodID
  | InvalidRequestID
  | InvalidParamType
  | InvalidKeyType
  | InvalidMessage
  | UnexpectedMessage
deriving DecidableEq

structure IoErr where
  msg : String
deriving DecidableEq

inductive TransportError where
  | Io (e : IoErr)
  | Proto (e : ProtocolError)
  | Encode (msg : String)
  | Decode (msg : String) (pos : Option Nat)
deriving DecidableEq

inductive DeError where
  | Io (e : IoErr)
  | Semantic (pos : Option Nat) (msg : String)
  | SyntaxError (pos : Nat)
  | RecursionLimitExceeded
deriving DecidableEq

inductive SerError where
  | Io (e : IoErr)
  | Value (msg : String)
deriving DecidableEq

/-- The derived `From<ProtocolError> for TransportError` (`#[from]` on the
`Proto` variant). -/
def TransportError.fromProtocolError (e : ProtocolError) : TransportError :=
  .Proto e

/-- The derived `From<std::io::Error> for TransportError` (`#[from]` on the
`Io` variant). -/
def TransportError.fromIoError (e : IoErr) : TransportError :=
  .Io e

/-- Embeds `impl From<ciborium::de::Error<E>> for TransportError` from
`src/error.rs`. -/
def TransportError.fromDeError : DeError → TransportError
  | .Io e => TransportError.fromIoError e
  | .Semantic pos msg => .Decode msg pos
  | .SyntaxError pos => .Decode "syntax error" (some pos)
  | .RecursionLimitExceeded => .Decode "recursion limit exceeded" none

/-- Embeds `impl From<ciborium::ser::Error<E>> for TransportError` from
`src/error.rs`. -/
def TransportError.fromSerError : SerError → TransportError
  | .Io e => TransportError.fromIoError e
  | .Value s => .Encode s

/-! ### Message data model (`src/proto/mod.rs`) -/

inductive MethodID where
  | String (s : String)
  | Number (n : Nat)
deriving DecidableEq

inductive RequestID where
  | Number (n : Nat)
  | String (s : String)
  | Binary (b : List Nat)
deriving DecidableEq

inductive Params where
  | Array (vs : List Value)
  | Named (kvs : List (String × Value))

structure ErrorValue where
  code : Int
  message : String
  data : Option Value

structure Request where
  method : MethodID
  params : Option Params
  req_id : Option RequestID

structure Response where
  result : Except ErrorValue Value
  req_id : RequestID

/-- Embeds `Params::is_empty`. -/
def Params.is_empty : Params → Bool
  | .Array v => v.isEmpty
  | .Named v => v.isEmpty

/-- Embeds `Params::into_option`: collapses an empty `Params` to `None`. -/
def Params.into_option (p : Params) : Option Params :=
  if p.is_empty then none else some p

/-! ### Conversion layer (`src/proto/mod.rs`) -/

/-- Embeds the free function `to_keyval`. -/
def to_keyval : Value × Value → Except ProtocolError (String × Value)
  | (.text s, v) => .ok (s, v)
  | _ => .error .InvalidKeyType

/-- The `Map` arm of `TryFrom<Value> for Params`:
`m.into_iter().map(to_keyval).collect::<Result<_,_>>()` — keyval conversion
of each entry in order, stopping at the first failing key. -/
def collectKeyvals : List (Value × Value) → Except ProtocolError (List (String × Value))
  | [] => .ok []
  | p :: ps =>
    match to_keyval p with
    | .error e => .error e
    | .ok kv =>
      match collectKeyvals ps with
      | .error e => .error e
      | .ok rest => .ok (kv :: rest)

/-- Embeds `impl TryFrom<Value> for Params`. -/
def Params.tryFromValue : Value → Except ProtocolError Params
  | .arr a => .ok (.Array a)
  | .map m => (collectKeyvals m).map .Named
  | _ => .error .InvalidParamType

/-- Embeds `impl TryFrom<Value> for RequestID`; `u64::try_from` on a
ciborium `Integer` succeeds exactly on `0 ≤ i < 2^64`. -/
def RequestID.tryFromValue : Value → Except ProtocolError RequestID
  | .int i => if 0 ≤ i ∧ i < 2 ^ 64 then .ok (.Number i.toNat) else .error .InvalidRequestID
  | .text s => .ok (.String s)
  | .bytes b => .ok (.Binary b)
  | _ => .error .InvalidRequestID

/-- Embeds `impl TryFrom<Value> for MethodID`. -/
def MethodID.tryFromValue : Value → Except ProtocolError MethodID
  | .int i => if 0 ≤ i ∧ i < 2 ^ 64 then .ok (.Number i.toNat) else .error .InvalidMethodID
  | .text s => .ok (.String s)
  | _ => .error .InvalidMethodID

/-- Embeds `impl From<Params> for Value` (note: the `Named` arm builds a
CBOR map). -/
def Params.toValue : Params → Value
  | .Array v => .arr v
  | .Named nv => .map (nv.map (fun p => (.text p.1, p.2)))

/-- Embeds `impl From<RequestID> for Value`. -/
def RequestID.toValue : RequestID → Value
  | .Binary b => .bytes b
  | .Number i => .int i
  | .String s => .text s

/-- Embeds `impl From<MethodID> for Value`. -/
def MethodID.toValue : MethodID → Value
  | .Number i => .int i
  | .String s => .text s

/-! ### The v0 wire framing (`src/proto/v0.rs`)

The Rust implementation derives `Serialize`/`Deserialize` for
`RPCMsg(Required<Msg, TAG_ID_RPCV0>)` where `Msg` is a
`#[serde(untagged)]` enum over `Request` (via `RequestMsg`: map keys
`fn`/`args`/`id`, the two `Option` fields skipped when `None`) and
`Response` (via `ResponseMsg`: a flattened externally-tagged
`ok`/`err` result plus a required `id` key).  The functions below spell
out what those derived implementations do on the dynamic value tree.

Serialization notes, following serde's semantics:

* an untagged enum serializes the payload of the active variant directly;
* `Params::Named(Vec<(String, Value)>)` therefore serializes as a serde
  sequence of 2-tuples, i.e. a CBOR array of `[key, value]` arrays — not
  as a CBOR map (the map shape is only used by `From<Params> for Value`,
  which the wire format does not invoke);
* `Option` fields carrying `Some(x)` serialize as `x`; `None` fields are
  skipped entirely (`skip_serializing_if = "Option::is_none"`);
* the `#[serde(flatten, with = "ResultMsg")]` result serializes first, as
  a single `ok`/`err` entry, followed by the `id` entry. -/

/-- Magic number / tag ID for RPC v0 messages (`TAG_ID_RPCV0`). -/
def TAG_ID_RPCV0 : Nat := 4036988077

/-- Serialization of `MethodID` (untagged: text or unsigned integer). -/
def serMethodID : MethodID → Value
  | .String s => .text s
  | .Number n => .int n

/-- Serialization of `RequestID` (untagged: integer, text, or — for the
`Binary(Vec<u8>)` variant — a serde sequence of `u8`, i.e. a CBOR array of
byte-sized integers: serde has no byte-string specialization for
`Vec<u8>`, so it does not serialize as a CBOR byte string). -/
def serRequestID : RequestID → Value
  | .Number n => .int n
  | .String s => .text s
  | .Binary b => .arr (b.map (fun x => .int (Int.ofNat x)))

/-- Serialization of `Params`: a positional `Array` is a CBOR array of the
values; a `Named` list is a serde sequence of `(String, Value)` tuples,
hence a CBOR array of two-element arrays. -/
def serParams : Params → Value
  | .Array vs => .arr vs
  | .Named kvs => .arr (kvs.map (fun p => .arr [.text p.1, p.2]))

/-- Serialization of `ErrorValue`: map with `code`, `message` and, only when
present, `data` (`skip_serializing_if = "Option::is_none"`). -/
def serErrorValue (e : ErrorValue) : Value :=
  .map ([(.text "code", .int e.code), (.text "message", .text e.message)] ++
    (match e.data with
     | none => []
     | some d => [(.text "data", d)]))

/-- Serialization of `Request` via `RequestMsg`: map with `fn` and, when
present, `args` and `id`. -/
def serRequest (r : Request) : Value :=
  .map ([(.text "fn", serMethodID r.method)] ++
    (match r.params with
     | none => []
     | some p => [(.text "args", serParams p)]) ++
    (match r.req_id with
     | none => []
     | some i => [(.text "id", serRequestID i)]))

/-- Serialization of `Response` via `ResponseMsg`: the flattened result
entry (`ok` or `err`) followed by the mandatory `id` entry. -/
def serResponse (r : Response) : Value :=
  .map ((match r.result with
     | .ok v => [(.text "ok", v)]
     | .error e => [(.text "err", serErrorValue e)]) ++
    [(.text "id", serRequestID r.req_id)])

/-- Embeds the `Msg` enum of `serde_v0`. -/
inductive Msg where
  | Request (r : Request)
  | Response (r : Response)

/-- Embeds `RPCMsg`; the `Required<_, TAG_ID_RPCV0>` wrapper is applied by
`serRPCMsg`/`deRPCMsg`. -/
structure RPCMsg where
  msg : Msg

/-- Serialization of the untagged `Msg` enum. -/
def serMsg : Msg → Value
  | .Request r => serRequest r
  | .Response r => serResponse r

/-- Serialization of `RPCMsg`: the mandatory tag wraps the message body. -/
def serRPCMsg (m : RPCMsg) : Value :=
  .tag TAG_ID_RPCV0 (serMsg m.msg)

/-! Deserialization of the derived serde implementations.  A derived struct
deserializer reads a map, matching field names and ignoring unknown keys
(non-text keys deserialize to no known field identifier and are likewise
ignored); the model resolves each field by its first occurrence.  An
`Option` field is absent-or-`null` to `None`.  The untagged `Msg` enum
tries `Request` first, then `Response`, as serde tries variants in
declaration order. -/

/-- First entry of a dynamic map whose key is the given text. -/
def lookupText : List (Value × Value) → String → Option Value
  | [], _ => none
  | (k, v) :: rest, name =>
    match k with
    | .text s => if s = name then some v else lookupText rest name
    | _ => lookupText rest name

/-- Deserialization of an optional struct field: missing or `null` is
`None`; a present value must deserialize. -/
def deOptField {α : Type} (entries : List (Value × Value)) (name : String)
    (f : Value → Option α) : Option (Option α) :=
  match lookupText entries name with
  | none => some none
  | some .null => some none
  | some v => (f v).map some

/-- Deserialization of the untagged `MethodID`: the `String` variant
accepts text, then the `Number` variant accepts a `u64`-ranged integer.
A CBOR byte string also reaches the `String` variant: serde's buffered
content forwards bytes to the string visitor, which accepts them exactly
when they are valid UTF-8 (approximated by `utf8DecList`; the v0 encoder
never emits a byte string in this position, and no claim below depends on
this branch). -/
def deMethodID : Value → Option MethodID
  | .text s => some (.String s)
  | .int i => if 0 ≤ i ∧ i < 2 ^ 64 then some (.Number i.toNat) else none
  | .bytes b => (utf8DecList b).map (fun cs => .String (String.mk cs))
  | _ => none

/-- Elementwise `u8` deserialization of a serde sequence (the
`Binary(Vec<u8>)` variant of `RequestID`): every element must be an
integer in `[0, 256)`. -/
def deU8List : List Value → Option (List Nat)
  | [] => some []
  | .int i :: rest =>
    if 0 ≤ i ∧ i < 256 then (deU8List rest).map (fun xs => i.toNat :: xs) else none
  | _ => none

/-- Deserialization of the untagged `RequestID`: `Number` accepts a
`u64`-ranged integer; `String` accepts text (and, as for `MethodID`,
valid-UTF-8 byte strings); `Binary` accepts a sequence of `u8`. -/
def deRequestID : Value → Option RequestID
  | .int i => if 0 ≤ i ∧ i < 2 ^ 64 then some (.Number i.toNat) else none
  | .text s => some (.String s)
  | .bytes b => (utf8DecList b).map (fun cs => .String (String.mk cs))
  | .arr vs => (deU8List vs).map .Binary
  | _ => none

/-- Deserialization of the untagged `Params`: the first variant
`Array(Vec<Value>)` accepts every CBOR array, so it wins on any array
(including an encoded `Named` list); a CBOR map is a serde map, which
matches neither `Vec<Value>` nor `Vec<(String, Value)>` (both expect
sequences), so no other shape deserializes. -/
def deParams : Value → Option Params
  | .arr vs => some (.Array vs)
  | _ => none

/-- Deserialization of `ErrorValue` (`code` is an `i64`, `message` text,
`data` an optional arbitrary value). -/
def deErrorValue : Value → Option ErrorValue
  | .map entries => do
    let codev ← lookupText entries "code"
    let code ←
      match codev with
      | .int i => if -(2 ^ 63) ≤ i ∧ i < 2 ^ 63 then some i else none
      | _ => none
    let msgv ← lookupText entries "message"
    let message ←
      match msgv with
      | .text s => some s
      | _ => none
    let data ← deOptField entries "data" some
    pure ⟨code, message, data⟩
  | _ => none

/-- Deserialization of `Request` via `RequestMsg` (field `fn` required,
`args` and `id` optional). -/
def deRequest : Value → Option Request
  | .map entries => do
    let fnv ← lookupText entries "fn"
    let method ← deMethodID fnv
    let params ← deOptField entries "args" deParams
    let req_id ← deOptField entries "id" deRequestID
    pure ⟨method, params, req_id⟩
  | _ => none

/-- Entries of a dynamic map other than the ones with the given text key
(what serde's `flatten` hands to the flattened field). -/
def dropKey (entries : List (Value × Value)) (name : String) : List (Value × Value) :=
  entries.filter (fun p =>
    match p.1 with
    | .text s => decide (s ≠ name)
    | _ => true)

/-- Deserialization of `Response` via `ResponseMsg`: the `id` field is
required, and the remaining entries, collected by `flatten`, must form the
externally tagged `ResultMsg` — a map with exactly one entry keyed `ok` or
`err`. -/
def deResponse : Value → Option Response
  | .map entries => do
    let idv ← lookupText entries "id"
    let req_id ← deRequestID idv
    let result ←
      match dropKey entries "id" with
      | [(k, x)] =>
        match k with
        | .text s =>
          if s = "ok" then some (Except.ok x)
          else if s = "err" then (deErrorValue x).map Except.error
          else none
        | _ => none
      | _ => none
    pure ⟨result, req_id⟩
  | _ => none

/-- Deserialization of the untagged `Msg`: try `Request`, then
`Response`. -/
def deMsg (v : Value) : Option Msg :=
  match deRequest v with
  | some r => some (.Request r)
  | none => (deResponse v).map .Response

/-- Deserialization of `RPCMsg`: `Required` demands the exact tag
`TAG_ID_RPCV0`; anything else is a deserialization failure. -/
def deRPCMsg : Value → Option RPCMsg
  | .tag n inner => if n = TAG_ID_RPCV0 then (deMsg inner).map RPCMsg.mk else none
  | _ => none

/-- Embeds `impl TryFrom<RPCMsg> for Request`. -/
def Request.tryFromRPCMsg (m : RPCMsg) : Except ProtocolError Request :=
  match m.msg with
  | .Request r => .ok r
  | .Response _ => .error .UnexpectedMessage

/-- Embeds `impl TryFrom<RPCMsg> for Response`. -/
def Response.tryFromRPCMsg (m : RPCMsg) : Except ProtocolError Response :=
  match m.msg with
  | .Request _ => .error .UnexpectedMessage
  | .Response r => .ok r

/-! ### Transport operations (`src/proto/v0.rs`, `src/transport.rs`)

`RPCMsg::into_writer` / `from_reader` (and their `Buf` variants, which
delegate to the same reader/writer code) are modelled over byte lists.  A
read decodes exactly one frame from the head of the input and leaves the
remainder unconsumed.  When the byte-level or serde-level decoding fails,
`ciborium::de::from_reader` reports a `ciborium::de::Error`, converted by
`From<ciborium::de::Error<_>> for TransportError` into a `Decode`
transport error; the concrete failure message and position of the
underlying decoder are abstracted here (the theorems below depend only on
the error being a `Decode`-kind transport error). -/

/-- Embeds `RPCMsg::into_writer` (serialize, then CBOR-encode). -/
def RPCMsg.intoBytes (m : RPCMsg) : List Nat :=
  encodeV (serRPCMsg m)

/-- Embeds `RPCMsg::from_reader` (CBOR-decode one value, then
deserialize). -/
def RPCMsg.fromBytes (bs : List Nat) : Except TransportError RPCMsg :=
  match decodeValue bs with
  | none => .error (TransportError.fromDeError (.SyntaxError 0))
  | some (v, _) =>
    match deRPCMsg v with
    | none => .error (TransportError.fromDeError (.Semantic none "invalid type"))
    | some m => .ok m

/-- Embeds `ClientTransport::send_request` / `ServerTransport::send_request`
for both channel shapes: encode one `Request` frame. -/
def send_request (r : Request) : List Nat :=
  RPCMsg.intoBytes ⟨.Request r⟩

/-- Embeds `ServerTransport::send_response`: encode one `Response` frame. -/
def send_response (r : Response) : List Nat :=
  RPCMsg.intoBytes ⟨.Response r⟩

/-- Embeds `ServerTransport::read_request`: decode one frame and project it
to a `Request`, wrapping a protocol error via `From<ProtocolError>`. -/
def read_request (bs : List Nat) : Except TransportError Request :=
  match RPCMsg.fromBytes bs with
  | .error e => .error e
  | .ok m =>
    match Request.tryFromRPCMsg m with
    | .ok r => .ok r
    | .error e => .error (TransportError.fromProtocolError e)

/-- Embeds `ClientTransport::read_response`. -/
def read_response (bs : List Nat) : Except TransportError Response :=
  match RPCMsg.fromBytes bs with
  | .error e => .error e
  | .ok m =>
    match Response.tryFromRPCMsg m with
    | .ok r => .ok r
    | .error e => .error (TransportError.fromProtocolError e)

/-! ### Well-formedness of typed messages

These predicates record the range invariants that the Rust types carry by
construction (`u64`/`i64` fields, `Vec<u8>` byte vectors, string lengths
representable in `u64`).  They are stated as computable `Bool` functions so
that concrete witnesses can be checked by evaluation. -/

def wfString (s : String) : Bool :=
  decide ((utf8Enc s.data).length < 2 ^ 64)

def wfMethodID : MethodID → Bool
  | .Number n => decide (n < 2 ^ 64)
  | .String s => wfString s

def wfRequestID : RequestID → Bool
  | .Number n => decide (n < 2 ^ 64)
  | .String s => wfString s
  | .Binary b => decide (b.length < 2 ^ 64) && b.all (fun x => decide (x < 256))

def wfParams : Params → Bool
  | .Array vs => decide (vs.length < 2 ^ 64) && vs.all validV
  | .Named kvs =>
    decide (kvs.length < 2 ^ 64) && kvs.all (fun p => wfString p.1 && validV p.2)

def wfOpt {α : Type} (f : α → Bool) : Option α → Bool
  | none => true
  | some x => f x

def wfRequest (r : Request) : Bool :=
  wfMethodID r.method && wfOpt wfParams r.params && wfOpt wfRequestID r.req_id

def wfErrorValue (e : ErrorValue) : Bool :=
  decide (-(2 ^ 63 : Int) ≤ e.code) && decide (e.code < 2 ^ 63) &&
    wfString e.message && wfOpt validV e.data

def wfResponse (r : Response) : Bool :=
  (match r.result with
   | .ok v => validV v
   | .error e => wfErrorValue e) && wfRequestID r.req_id

/-! ### Wire images

What a message looks like after one trip through the serde wire format:
`Named` params come back as the positional array of their `[key, value]`
pair arrays (see `deParams`), and an error-`data` field that was present
but `null` comes back absent (serde reads `null` into `None`). -/

def wireParams : Params → Params
  | .Array vs => .Array vs
  | .Named kvs => .Array (kvs.map (fun p => .arr [.text p.1, p.2]))

def wireData : Option Value → Option Value
  | some .null => none
  | d => d

def wireErrorValue (e : ErrorValue) : ErrorValue :=
  ⟨e.code, e.message, wireData e.data⟩

def wireRequest (r : Request) : Request :=
  ⟨r.method, r.params.map wireParams, r.req_id⟩

def wireResponse (r : Response) : Response :=
  ⟨match r.result with
    | .ok v => .ok v
    | .error e => .error (wireErrorValue e), r.req_id⟩

def wireMsg : Msg → Msg
  | .Request r => .Request (wireRequest r)
  | .Response r => .Response (wireResponse r)

/-! ### Validity of serialized messages -/

theorem validVList_eq_all (vs : List Value) : validVList vs = vs.all validV := by
  induction vs with
  | nil => rfl
  | cons v vs ih => simp [validVList, ih]

theorem validV_serMethodID (m : MethodID) (h : wfMethodID m = true) :
    validV (serMethodID m) = true := by
  cases m with
  | String s =>
    simp only [wfMethodID, wfString, decide_eq_true_eq] at h
    simp only [serMethodID, validV, decide_eq_true_eq]
    omega
  | Number n =>
    simp only [wfMethodID, decide_eq_true_eq] at h
    simp only [serMethodID, validV, Bool.and_eq_true, decide_eq_true_eq]
    omega

theorem validV_serRequestID (i : RequestID) (h : wfRequestID i = true) :
    validV (serRequestID i) = true := by
  cases i with
  | String s =>
    simp only [wfRequestID, wfString, decide_eq_true_eq] at h
    simp only [serRequestID, validV, decide_eq_true_eq]
    omega
  | Number n =>
    simp only [wfRequestID, decide_eq_true_eq] at h
    simp only [serRequestID, validV, Bool.and_eq_true, decide_eq_true_eq]
    omega
  | Binary b =>
    simp only [wfRequestID, Bool.and_eq_true, decide_eq_true_eq, List.all_eq_true] at h
    obtain ⟨hlen, hall⟩ := h
    simp only [serRequestID, validV, Bool.and_eq_true, decide_eq_true_eq, List.length_map,
      validVList_eq_all, List.all_eq_true, List.mem_map]
    refine ⟨hlen, ?_⟩
    rintro x ⟨y, hy, rfl⟩
    have := hall y hy
    simp only [validV, Bool.and_eq_true, decide_eq_true_eq, Int.ofNat_eq_coe]
    omega

theorem validV_serParams (p : Params) (h : wfParams p = true) :
    validV (serParams p) = true := by
  cases p with
  | Array vs =>
    simp only [wfParams, Bool.and_eq_true, decide_eq_true_eq] at h
    simp only [serParams, validV, Bool.and_eq_true, decide_eq_true_eq, validVList_eq_all]
    exact ⟨h.1, h.2⟩
  | Named kvs =>
    simp only [wfParams, Bool.and_eq_true, decide_eq_true_eq, List.all_eq_true] at h
    obtain ⟨hlen, hall⟩ := h
    simp only [serParams, validV, Bool.and_eq_true, decide_eq_true_eq, validVList_eq_all,
      List.length_map]
    refine ⟨hlen, ?_⟩
    simp only [List.all_eq_true, List.mem_map]
    rintro x ⟨p, hp, rfl⟩
    have := hall p hp
    simp only [Bool.and_eq_true] at this
    obtain ⟨h1, h2⟩ := this
    simp only [wfString, decide_eq_true_eq] at h1
    simp [validV, validVList, h2] <;> omega

theorem validV_serErrorValue (e : ErrorValue) (h : wfErrorValue e = true) :
    validV (serErrorValue e) = true := by
  obtain ⟨code, message, data⟩ := e
  simp only [wfErrorValue, Bool.and_eq_true, decide_eq_true_eq] at h
  obtain ⟨⟨⟨hlo, hhi⟩, hmsg⟩, hdata⟩ := h
  simp only [wfString, decide_eq_true_eq] at hmsg
  cases data with
  | none =>
    simp only [serErrorValue, List.append_nil, validV, validVPairs, Bool.and_eq_true,
      decide_eq_true_eq]
    refine ⟨by norm_num, ?_⟩
    have hcode : (utf8Enc ['c', 'o', 'd', 'e']).length < 2 ^ 64 := by decide
    have hmess : (utf8Enc ['m', 'e', 's', 's', 'a', 'g', 'e']).length < 2 ^ 64 := by decide
    simp [validV, validVPairs] <;> omega
  | some d =>
    simp only [wfOpt] at hdata
    simp only [serErrorValue, List.cons_append, List.nil_append, validV, validVPairs,
      Bool.and_eq_true, decide_eq_true_eq]
    refine ⟨by norm_num, ?_⟩
    have hcode : (utf8Enc ['c', 'o', 'd', 'e']).length < 2 ^ 64 := by decide
    have hmess : (utf8Enc ['m', 'e', 's', 's', 'a', 'g', 'e']).length < 2 ^ 64 := by decide
    have hdat : (utf8Enc ['d', 'a', 't', 'a']).length < 2 ^ 64 := by decide
    simp [validV, validVPairs, hdata] <;> omega

theorem validV_serRequest (r : Request) (h : wfRequest r = true) :
    validV (serRequest r) = true := by
  obtain ⟨m, params, req_id⟩ := r
  simp only [wfRequest, Bool.and_eq_true] at h
  obtain ⟨⟨hm, hp⟩, hi⟩ := h
  have hfn : (utf8Enc ['f', 'n']).length < 2 ^ 64 := by decide
  have hargs : (utf8Enc ['a', 'r', 'g', 's']).length < 2 ^ 64 := by decide
  have hid : (utf8Enc ['i', 'd']).length < 2 ^ 64 := by decide
  have hm' := validV_serMethodID m hm
  cases params with
  | none =>
    cases req_id with
    | none => simp [serRequest, validV, validVPairs, hm'] <;> omega
    | some i =>
      have hi' := validV_serRequestID i (by simpa [wfOpt] using hi)
      simp [serRequest, validV, validVPairs, hm', hi'] <;> omega
  | some p =>
    have hp' := validV_serParams p (by simpa [wfOpt] using hp)
    cases req_id with
    | none => simp [serRequest, validV, validVPairs, hm', hp'] <;> omega
    | some i =>
      have hi' := validV_serRequestID i (by simpa [wfOpt] using hi)
      simp [serRequest, validV, validVPairs, hm', hp', hi'] <;> omega

theorem validV_serResponse (r : Response) (h : wfResponse r = true) :
    validV (serResponse r) = true := by
  obtain ⟨result, req_id⟩ := r
  simp only [wfResponse, Bool.and_eq_true] at h
  obtain ⟨hres, hi⟩ := h
  have hok : (utf8Enc ['o', 'k']).length < 2 ^ 64 := by decide
  have herr : (utf8Enc ['e', 'r', 'r']).length < 2 ^ 64 := by decide
  have hid : (utf8Enc ['i', 'd']).length < 2 ^ 64 := by decide
  have hi' := validV_serRequestID req_id hi
  cases result with
  | ok v =>
    simp only at hres
    simp [serResponse, validV, validVPairs, hres, hi'] <;> omega
  | error e =>
    simp only at hres
    have he' := validV_serErrorValue e hres
    show validV (.map [(Value.text "err", serErrorValue e),
      (Value.text "id", serRequestID req_id)]) = true
    generalize serErrorValue e = ev at he' ⊢
    simp [validV, validVPairs, he', hi'] <;> omega

theorem validV_serRPCMsg (msg : Msg) (h : validV (serMsg msg) = true) :
    validV (serRPCMsg ⟨msg⟩) = true := by
  simp only [serRPCMsg, validV, Bool.and_eq_true, decide_eq_true_eq]
  exact ⟨by norm_num [TAG_ID_RPCV0], h⟩

/-! ### Deserialize-after-serialize at the value level -/

theorem deMethodID_serMethodID (m : MethodID) (h : wfMethodID m = true) :
    deMethodID (serMethodID m) = some m := by
  cases m with
  | String s => rfl
  | Number n =>
    simp only [wfMethodID, decide_eq_true_eq] at h
    simp only [serMethodID, deMethodID]
    rw [if_pos ⟨by omega, by omega⟩]
    simp

theorem deU8List_map_int (b : List Nat) (hall : ∀ x ∈ b, x < 256) :
    deU8List (b.map (fun x => Value.int (Int.ofNat x))) = some b := by
  induction b with
  | nil => rfl
  | cons x xs ih =>
    have hx : x < 256 := hall x (by simp)
    simp only [List.map_cons, deU8List]
    rw [if_pos (show 0 ≤ Int.ofNat x ∧ Int.ofNat x < 256 from by
      simp only [Int.ofNat_eq_coe]
      omega)]
    rw [ih (fun y hy => hall y (by simp [hy]))]
    simp

theorem deRequestID_serRequestID (i : RequestID) (h : wfRequestID i = true) :
    deRequestID (serRequestID i) = some i := by
  cases i with
  | String s => rfl
  | Binary b =>
    simp only [wfRequestID, Bool.and_eq_true, decide_eq_true_eq, List.all_eq_true] at h
    obtain ⟨hlen, hall⟩ := h
    simp only [serRequestID, deRequestID]
    rw [deU8List_map_int b (fun x hx => by simpa using hall x hx)]
    rfl
  | Number n =>
    simp only [wfRequestID, decide_eq_true_eq] at h
    simp only [serRequestID, deRequestID]
    rw [if_pos ⟨by omega, by omega⟩]
    simp

theorem deParams_serParams (p : Params) :
    deParams (serParams p) = some (wireParams p) := by
  cases p <;> rfl

theorem deErrorValue_serErrorValue (e : ErrorValue) (h : wfErrorValue e = true) :
    deErrorValue (serErrorValue e) = some (wireErrorValue e) := by
  obtain ⟨code, message, data⟩ := e
  simp only [wfErrorValue, Bool.and_eq_true, decide_eq_true_eq] at h
  obtain ⟨⟨⟨hlo, hhi⟩, _⟩, _⟩ := h
  have hc : (if -(2 ^ 63 : Int) ≤ code ∧ code < 2 ^ 63 then some code else none) =
      some code := if_pos ⟨hlo, hhi⟩
  cases data with
  | none =>
    simp [serErrorValue, deErrorValue, lookupText, deOptField, hc, wireErrorValue,
      wireData] <;> omega
  | some d =>
    cases d <;>
      simp [serErrorValue, deErrorValue, lookupText, deOptField, hc, wireErrorValue,
        wireData] <;> omega

theorem deRequest_serRequest (r : Request) (h : wfRequest r = true) :
    deRequest (serRequest r) = some (wireRequest r) := by
  obtain ⟨m, params, req_id⟩ := r
  simp only [wfRequest, Bool.and_eq_true] at h
  obtain ⟨⟨hm, hp⟩, hi⟩ := h
  have hm' := deMethodID_serMethodID m hm
  cases params with
  | none =>
    cases req_id with
    | none => simp [serRequest, deRequest, lookupText, deOptField, hm', wireRequest]
    | some i =>
      have hi' := deRequestID_serRequestID i (by simpa [wfOpt] using hi)
      cases i <;>
        simp_all [serRequest, deRequest, lookupText, deOptField, serRequestID, wireRequest]
  | some p =>
    have hp' := deParams_serParams p
    cases req_id with
    | none =>
      cases p <;>
        simp_all [serRequest, deRequest, lookupText, deOptField, serParams, wireRequest]
    | some i =>
      have hi' := deRequestID_serRequestID i (by simpa [wfOpt] using hi)
      cases p <;> cases i <;>
        simp_all [serRequest, deRequest, lookupText, deOptField, serParams, serRequestID,
          wireRequest]

theorem deResponse_serResponse (r : Response) (h : wfResponse r = true) :
    deResponse (serResponse r) = some (wireResponse r) := by
  obtain ⟨result, req_id⟩ := r
  simp only [wfResponse, Bool.and_eq_true] at h
  obtain ⟨hres, hi⟩ := h
  have hi' := deRequestID_serRequestID req_id hi
  generalize hID : serRequestID req_id = idv at hi'
  cases result with
  | ok v =>
    simp [serResponse, deResponse, lookupText, dropKey, hID, hi', wireResponse]
  | error e =>
    simp only at hres
    have he' := deErrorValue_serErrorValue e hres
    generalize hEV : serErrorValue e = ev at he'
    simp [serResponse, deResponse, lookupText, dropKey, hID, hEV, hi', he', wireResponse]

theorem deRequest_serResponse (r : Response) :
    deRequest (serResponse r) = none := by
  obtain ⟨result, req_id⟩ := r
  cases result <;> simp [serResponse, deRequest, lookupText]

theorem deResponse_serRequest (r : Request) :
    deResponse (serRequest r) = none := by
  obtain ⟨m, params, req_id⟩ := r
  cases params with
  | none =>
    cases req_id with
    | none => simp [serRequest, deResponse, lookupText]
    | some i =>
      cases i <;>
        simp [serRequest, deResponse, lookupText, deOptField, dropKey, serRequestID,
          deRequestID] <;>
        split <;> simp
  | some p =>
    cases req_id with
    | none => simp [serRequest, deResponse, lookupText]
    | some i =>
      cases i <;>
        simp [serRequest, deResponse, lookupText, deOptField, dropKey, serRequestID,
          deRequestID] <;>
        split <;> simp

theorem deMsg_serMsg_Request (r : Request) (h : wfRequest r = true) :
    deMsg (serRequest r) = some (.Request (wireRequest r)) := by
  simp [deMsg, deRequest_serRequest r h]

theorem deMsg_serMsg_Response (r : Response) (h : wfResponse r = true) :
    deMsg (serResponse r) = some (.Response (wireResponse r)) := by
  simp [deMsg, deRequest_serResponse r, deResponse_serResponse r h]

theorem deRPCMsg_serRPCMsg (m : Msg) (h : deMsg (serMsg m) = some (wireMsg m)) :
    deRPCMsg (serRPCMsg ⟨m⟩) = some ⟨wireMsg m⟩ := by
  simp [deRPCMsg, serRPCMsg, h]

/-! ### End-to-end byte pipelines -/

theorem fromBytes_intoBytes_Request (r : Request) (h : wfRequest r = true) :
    RPCMsg.fromBytes (RPCMsg.intoBytes ⟨.Request r⟩) = .ok ⟨.Request (wireRequest r)⟩ := by
  unfold RPCMsg.intoBytes RPCMsg.fromBytes
  have hv : validV (serRPCMsg ⟨.Request r⟩) = true :=
    validV_serRPCMsg _ (validV_serRequest r h)
  have hdec := decodeValue_encodeV (serRPCMsg ⟨.Request r⟩) hv []
  rw [List.append_nil] at hdec
  rw [hdec]
  have hde : deRPCMsg (serRPCMsg ⟨.Request r⟩) = some ⟨.Request (wireRequest r)⟩ :=
    deRPCMsg_serRPCMsg (.Request r) (deMsg_serMsg_Request r h)
  simp [hde]

theorem fromBytes_intoBytes_Response (r : Response) (h : wfResponse r = true) :
    RPCMsg.fromBytes (RPCMsg.intoBytes ⟨.Response r⟩) = .ok ⟨.Response (wireResponse r)⟩ := by
  unfold RPCMsg.intoBytes RPCMsg.fromBytes
  have hv : validV (serRPCMsg ⟨.Response r⟩) = true :=
    validV_serRPCMsg _ (validV_serResponse r h)
  have hdec := decodeValue_encodeV (serRPCMsg ⟨.Response r⟩) hv []
  rw [List.append_nil] at hdec
  rw [hdec]
  have hde : deRPCMsg (serRPCMsg ⟨.Response r⟩) = some ⟨.Response (wireResponse r)⟩ :=
    deRPCMsg_serRPCMsg (.Response r) (deMsg_serMsg_Response r h)
  simp [hde]

theorem read_request_send_request (r : Request) (h : wfRequest r = true) :
    read_request (send_request r) = .ok (wireRequest r) := by
  unfold read_request send_request
  rw [fromBytes_intoBytes_Request r h]
  rfl

theorem read_response_send_response (r : Response) (h : wfResponse r = true) :
    read_response (send_response r) = .ok (wireResponse r) := by
  unfold read_response send_response
  rw [fromBytes_intoBytes_Response r h]
  rfl

theorem read_response_send_request (r : Request) (h : wfRequest r = true) :
    read_response (send_request r) =
      .error (TransportError.Proto ProtocolError.UnexpectedMessage) := by
  unfold read_response send_request
  rw [fromBytes_intoBytes_Request r h]
  rfl

theorem read_request_send_response (r : Response) (h : wfResponse r = true) :
    read_request (send_response r) =
      .error (TransportError.Proto ProtocolError.UnexpectedMessage) := by
  unfold read_request send_response
  rw [fromBytes_intoBytes_Response r h]
  rfl

/-! ### Helpers for stating and proving the claims -/

/-- A request's params slot is positional (or absent). -/
def paramsPositional : Option Params → Bool
  | some (.Named _) => false
  | _ => true

/-- A response's error `data`, when present, is not the dynamic `null`. -/
def respErrDataNotNull : Response → Bool
  | ⟨.error e, _⟩ =>
    match e.data with
    | some .null => false
    | _ => true
  | _ => true

/-- The given transport result is a `Decode`-kind failure. -/
def isDecodeFailure {α : Type} : Except TransportError α → Bool
  | .error (.Decode _ _) => true
  | _ => false

theorem wireRequest_eq_self (r : Request) (h : paramsPositional r.params = true) :
    wireRequest r = r := by
  obtain ⟨m, params, req_id⟩ := r
  cases params with
  | none => rfl
  | some p =>
    cases p with
    | Array vs => rfl
    | Named kvs => simp [paramsPositional] at h

theorem wireResponse_eq_self (r : Response) (h : respErrDataNotNull r = true) :
    wireResponse r = r := by
  obtain ⟨result, req_id⟩ := r
  cases result with
  | ok v => rfl
  | error e =>
    obtain ⟨code, message, data⟩ := e
    cases data with
    | none => rfl
    | some d =>
      cases d <;> first
        | rfl
        | simp [respErrDataNotNull] at h

theorem deRPCMsg_not_tagged (v : Value) (h : ∀ inner, v ≠ .tag TAG_ID_RPCV0 inner) :
    deRPCMsg v = none := by
  cases v with
  | tag n inner =>
    by_cases hn : n = TAG_ID_RPCV0
    · exact absurd (by rw [hn]) (h inner)
    · simp [deRPCMsg, hn]
  | int i => rfl
  | bytes b => rfl
  | float bits => rfl
  | text s => rfl
  | bool b => rfl
  | null => rfl
  | arr xs => rfl
  | map ps => rfl

theorem tryFromValue_map_textKeys (kvs : List (String × Value)) :
    Params.tryFromValue (.map (kvs.map (fun p => (.text p.1, p.2)))) = .ok (.Named kvs) := by
  have hcoll : collectKeyvals (kvs.map (fun p => ((Value.text p.1 : Value), p.2))) =
      .ok kvs := by
    induction kvs with
    | nil => rfl
    | cons p ps ih =>
      obtain ⟨k, v⟩ := p
      simp [collectKeyvals, to_keyval, ih]
  calc Params.tryFromValue (.map (kvs.map (fun p => (.text p.1, p.2))))
      = (collectKeyvals (kvs.map (fun p => ((Value.text p.1 : Value), p.2)))).map
          Params.Named := rfl
    _ = .ok (.Named kvs) := by rw [hcoll]; rfl

theorem to_keyval_error (p : Value × Value) (e : ProtocolError)
    (h : to_keyval p = .error e) : e = .InvalidKeyType := by
  obtain ⟨k, v⟩ := p
  cases k <;> simp [to_keyval] at h
  all_goals exact h.symm

theorem collectKeyvals_error (m : List (Value × Value)) (e : ProtocolError)
    (h : collectKeyvals m = .error e) : e = .InvalidKeyType := by
  induction m with
  | nil => simp [collectKeyvals] at h
  | cons p ps ih =>
    cases hp : to_keyval p with
    | error e' =>
      simp [collectKeyvals, hp] at h
      rw [← h]
      exact to_keyval_error p e' hp
    | ok kv =>
      cases hps : collectKeyvals ps with
      | error e' =>
        simp [collectKeyvals, hp, hps] at h
        subst h
        exact ih hps
      | ok l => simp [collectKeyvals, hp, hps] at h

/-! ### The claims -/

/-- C1, counterexample: the claim "encode-then-decode through the v0 wire
format yields a message equal to the original, for every Request and
Response" fails on (a) a Request whose params are the `Named` variant:
`Named []` (params present-but-empty) encodes as the empty CBOR array,
which decodes as positional `Array []`, not as the original `Named []`;
and (b) a Response whose ErrorValue has `data` present but `null`, which
decodes back with `data` absent. -/
theorem c1_roundtrip_counterexample :
    (read_request (send_request ⟨.String "m", some (.Named []), none⟩) ≠
      .ok ⟨.String "m", some (.Named []), none⟩ ∧
    read_request (send_request ⟨.String "m", some (.Named []), none⟩) =
      .ok ⟨.String "m", some (.Array []), none⟩) ∧
    (read_response (send_response ⟨.error ⟨1, "e", some .null⟩, .Number 0⟩) ≠
      .ok ⟨.error ⟨1, "e", some .null⟩, .Number 0⟩ ∧
    read_response (send_response ⟨.error ⟨1, "e", some .null⟩, .Number 0⟩) =
      .ok ⟨.error ⟨1, "e", none⟩, .Number 0⟩) := by
  refine ⟨⟨?_, rfl⟩, ?_, rfl⟩
  · intro h
    rw [show read_request (send_request ⟨.String "m", some (.Named []), none⟩) =
        .ok ⟨MethodID.String "m", some (Params.Array []), none⟩ from rfl] at h
    simp at h
  · intro h
    rw [show read_response (send_response ⟨.error ⟨1, "e", some .null⟩, .Number 0⟩) =
        .ok ⟨.error ⟨1, "e", none⟩, RequestID.Number 0⟩ from rfl] at h
    simp at h

/-- C1 (amended): for every Request whose params, when present, are
positional (including params present-but-empty, params absent, req_id
present, req_id absent), and for every Response with a success value or
with an ErrorValue (with or without `data`, as long as a present `data` is
not the dynamic `null`), encoding through the v0 wire format and then
decoding the resulting bytes yields a message equal to the original. -/
theorem c1_roundtrip_amended :
    (∀ r : Request, wfRequest r = true → paramsPositional r.params = true →
      read_request (send_request r) = .ok r) ∧
    (∀ r : Response, wfResponse r = true → respErrDataNotNull r = true →
      read_response (send_response r) = .ok r) := by
  constructor
  · intro r h hp
    rw [read_request_send_request r h, wireRequest_eq_self r hp]
  · intro r h hd
    rw [read_response_send_response r h, wireResponse_eq_self r hd]

/-- Witness for C1's amended round-trip at concrete messages. -/
theorem c1_roundtrip_witness :
    read_request (send_request ⟨.String "hello", some (.Array []), some (.Number 42)⟩) =
      .ok ⟨.String "hello", some (.Array []), some (.Number 42)⟩ ∧
    read_response (send_response ⟨.error ⟨418, "teapot", some (.int 7)⟩, .Number 42⟩) =
      .ok ⟨.error ⟨418, "teapot", some (.int 7)⟩, .Number 42⟩ :=
  ⟨c1_roundtrip_amended.1 _ (by decide) (by decide),
   c1_roundtrip_amended.2 _ (by decide) (by decide)⟩

/-- C2: a byte sequence produced by encoding a Request, when read as a
Response (`read_response`), fails with the `UnexpectedMessage` protocol
error wrapped in the transport error, and vice versa; such a wrong-kind
read never succeeds for any encoded message. -/
theorem c2_wrong_kind_read :
    (∀ r : Request, wfRequest r = true →
      read_response (send_request r) =
        .error (TransportError.Proto ProtocolError.UnexpectedMessage)) ∧
    (∀ r : Response, wfResponse r = true →
      read_request (send_response r) =
        .error (TransportError.Proto ProtocolError.UnexpectedMessage)) :=
  ⟨read_response_send_request, read_request_send_response⟩

/-- Witness for C2 at concrete messages (a Named-params request included:
even requests that do not round-trip still fail a wrong-kind read with
`UnexpectedMessage`). -/
theorem c2_wrong_kind_read_witness :
    read_response (send_request ⟨.String "m", some (.Named [("a", .null)]), none⟩) =
      .error (TransportError.Proto ProtocolError.UnexpectedMessage) ∧
    read_request (send_response ⟨.ok .null, .Number 1⟩) =
      .error (TransportError.Proto ProtocolError.UnexpectedMessage) :=
  ⟨c2_wrong_kind_read.1 _ (by decide), c2_wrong_kind_read.2 _ (by decide)⟩

/-- C3: decoding the encoding of any dynamic value that is not wrapped in
the magic tag `TAG_ID_RPCV0` — whether the tag is missing altogether or a
different tag number is used — fails with a decode-kind transport error on
both read paths; it is never accepted as a v0 message. -/
theorem c3_tag_enforcement :
    ∀ v : Value, validV v = true → (∀ inner, v ≠ .tag TAG_ID_RPCV0 inner) →
      isDecodeFailure (read_request (encodeV v)) = true ∧
      isDecodeFailure (read_response (encodeV v)) = true := by
  intro v hv hne
  have hdec := decodeValue_encodeV v hv []
  rw [List.append_nil] at hdec
  have hde := deRPCMsg_not_tagged v hne
  constructor <;>
    simp [read_request, read_response, RPCMsg.fromBytes, hdec, hde,
      TransportError.fromDeError, isDecodeFailure]

/-- Witness for C3: an untagged value and a wrongly tagged value are both
rejected with decode errors. -/
theorem c3_tag_enforcement_witness :
    (isDecodeFailure (read_request (encodeV (.int 7))) = true ∧
      isDecodeFailure (read_response (encodeV (.int 7))) = true) ∧
    (isDecodeFailure (read_request (encodeV (.tag 99 .null))) = true ∧
      isDecodeFailure (read_response (encodeV (.tag 99 .null))) = true) :=
  ⟨c3_tag_enforcement (.int 7) (by decide) (fun _ h => Value.noConfusion h),
   c3_tag_enforcement (.tag 99 .null) (by decide)
     (fun inner h => by
       injection h with h1 h2
       exact absurd h1 (by decide))⟩

theorem collectKeyvals_has_error (m : List (Value × Value))
    (hex : ∃ p ∈ m, ∀ s, p.1 ≠ Value.text s) :
    ∃ e, collectKeyvals m = .error e := by
  induction m with
  | nil =>
    obtain ⟨p, hp, _⟩ := hex
    simp at hp
  | cons q m' ih =>
    obtain ⟨p, hp, hnt⟩ := hex
    cases hq : to_keyval q with
    | error e => exact ⟨e, by simp [collectKeyvals, hq]⟩
    | ok kv =>
      rcases List.mem_cons.mp hp with rfl | hp'
      · obtain ⟨k, v⟩ := p
        cases k <;> simp [to_keyval] at hq
        exact absurd rfl (hnt _)
      · obtain ⟨e, he⟩ := ih ⟨p, hp', hnt⟩
        exact ⟨e, by simp [collectKeyvals, hq, he]⟩

/-- C4: converting a dynamic `Value` to `Params`: an array yields positional
params holding exactly the array's elements verbatim; a map yields named
params when every key is textual, and fails with `InvalidKeyType` when some
key is not; every other value kind fails with `InvalidParamType`.  (The
conversion returns an `Except`, so no partial `Params` exists on
failure.) -/
theorem c4_params_from_value :
    (∀ a, Params.tryFromValue (.arr a) = .ok (.Array a)) ∧
    (∀ kvs : List (String × Value),
      Params.tryFromValue (.map (kvs.map (fun p => (.text p.1, p.2)))) = .ok (.Named kvs)) ∧
    (∀ m : List (Value × Value), (∃ p ∈ m, ∀ s, p.1 ≠ Value.text s) →
      Params.tryFromValue (.map m) = .error .InvalidKeyType) ∧
    (∀ i, Params.tryFromValue (.int i) = .error .InvalidParamType) ∧
    (∀ b, Params.tryFromValue (.bytes b) = .error .InvalidParamType) ∧
    (∀ bits, Params.tryFromValue (.float bits) = .error .InvalidParamType) ∧
    (∀ s, Params.tryFromValue (.text s) = .error .InvalidParamType) ∧
    (∀ b, Params.tryFromValue (.bool b) = .error .InvalidParamType) ∧
    (Params.tryFromValue .null = .error .InvalidParamType) ∧
    (∀ n v, Params.tryFromValue (.tag n v) = .error .InvalidParamType) := by
  refine ⟨fun a => rfl, tryFromValue_map_textKeys, fun m hex => ?_, fun i => rfl,
    fun b => rfl, fun bits => rfl, fun s => rfl, fun b => rfl, rfl, fun n v => rfl⟩
  obtain ⟨e, he⟩ := collectKeyvals_has_error m hex
  have := collectKeyvals_error m e he
  subst this
  show (collectKeyvals m).map Params.Named = .error .InvalidKeyType
  rw [he]
  rfl

/-- Witness for C4's fallible branch: a map with a non-text (integer) key is
rejected with `InvalidKeyType`. -/
theorem c4_params_from_value_witness :
    Params.tryFromValue (.map [(.int 0, .null)]) = .error .InvalidKeyType :=
  c4_params_from_value.2.2.1 [((Value.int 0 : Value), Value.null)]
    ⟨(.int 0, .null), by simp, fun s h => Value.noConfusion h⟩

/-- C5: converting an integer dynamic value to `RequestID` or `MethodID`
succeeds exactly when the integer is representable as an unsigned 64-bit
number; text maps to the textual variant of both, bytes map to
`RequestID.Binary` (and fail for `MethodID`), and every other value kind
fails with the corresponding invalid-id error. -/
theorem c5_id_from_value :
    (∀ i : Int, 0 ≤ i → i < 2 ^ 64 →
      RequestID.tryFromValue (.int i) = .ok (.Number i.toNat) ∧
      MethodID.tryFromValue (.int i) = .ok (.Number i.toNat)) ∧
    (∀ i : Int, i < 0 ∨ 2 ^ 64 ≤ i →
      RequestID.tryFromValue (.int i) = .error .InvalidRequestID ∧
      MethodID.tryFromValue (.int i) = .error .InvalidMethodID) ∧
    (∀ s, RequestID.tryFromValue (.text s) = .ok (.String s) ∧
      MethodID.tryFromValue (.text s) = .ok (.String s)) ∧
    (∀ b, RequestID.tryFromValue (.bytes b) = .ok (.Binary b)) ∧
    (∀ b, MethodID.tryFromValue (.bytes b) = .error .InvalidMethodID) ∧
    (∀ bits, RequestID.tryFromValue (.float bits) = .error .InvalidRequestID ∧
      MethodID.tryFromValue (.float bits) = .error .InvalidMethodID) ∧
    (∀ b, RequestID.tryFromValue (.bool b) = .error .InvalidRequestID ∧
      MethodID.tryFromValue (.bool b) = .error .InvalidMethodID) ∧
    (RequestID.tryFromValue .null = .error .InvalidRequestID ∧
      MethodID.tryFromValue .null = .error .InvalidMethodID) ∧
    (∀ a, RequestID.tryFromValue (.arr a) = .error .InvalidRequestID ∧
      MethodID.tryFromValue (.arr a) = .error .InvalidMethodID) ∧
    (∀ m, RequestID.tryFromValue (.map m) = .error .InvalidRequestID ∧
      MethodID.tryFromValue (.map m) = .error .InvalidMethodID) ∧
    (∀ n v, RequestID.tryFromValue (.tag n v) = .error .InvalidRequestID ∧
      MethodID.tryFromValue (.tag n v) = .error .InvalidMethodID) := by
  refine ⟨fun i h1 h2 => ?_, fun i h => ?_, fun s => ⟨rfl, rfl⟩, fun b => rfl, fun b => rfl,
    fun bits => ⟨rfl, rfl⟩, fun b => ⟨rfl, rfl⟩, ⟨rfl, rfl⟩, fun a => ⟨rfl, rfl⟩,
    fun m => ⟨rfl, rfl⟩, fun n v => ⟨rfl, rfl⟩⟩
  · constructor
    · simp only [RequestID.tryFromValue]
      rw [if_pos (show 0 ≤ i ∧ i < 2 ^ 64 from ⟨h1, h2⟩)]
    · simp only [MethodID.tryFromValue]
      rw [if_pos (show 0 ≤ i ∧ i < 2 ^ 64 from ⟨h1, h2⟩)]
  · have hn : ¬(0 ≤ i ∧ i < 2 ^ 64) := by rcases h with h | h <;> omega
    constructor
    · simp only [RequestID.tryFromValue]
      rw [if_neg hn]
    · simp only [MethodID.tryFromValue]
      rw [if_neg hn]

/-- Witness for C5: `u64::MAX` converts successfully; `-1` and `2^64` are
rejected. -/
theorem c5_id_from_value_witness :
    (RequestID.tryFromValue (.int (2 ^ 64 - 1)) = .ok (.Number (2 ^ 64 - 1 : Int).toNat) ∧
      MethodID.tryFromValue (.int (2 ^ 64 - 1)) = .ok (.Number (2 ^ 64 - 1 : Int).toNat)) ∧
    (RequestID.tryFromValue (.int (-1)) = .error .InvalidRequestID ∧
      MethodID.tryFromValue (.int (-1)) = .error .InvalidMethodID) ∧
    (RequestID.tryFromValue (.int (2 ^ 64)) = .error .InvalidRequestID ∧
      MethodID.tryFromValue (.int (2 ^ 64)) = .error .InvalidMethodID) :=
  ⟨c5_id_from_value.1 (2 ^ 64 - 1) (by norm_num) (by norm_num),
   c5_id_from_value.2.1 (-1) (Or.inl (by norm_num)),
   c5_id_from_value.2.1 (2 ^ 64) (Or.inr (by norm_num))⟩

/-- C6: the outbound conversions `Params → Value`, `RequestID → Value` and
`MethodID → Value` are total Lean functions (they are defined on every
typed value and never fail), and converting back with the fallible inbound
conversion recovers the original typed value — in particular each typed
value has exactly one canonical dynamic representation, and the
round-trip also shows the outbound conversions are injective.  The
integer variants carry a Rust `u64`, captured by the `n < 2^64` bound. -/
theorem c6_to_value_roundtrip :
    (∀ p : Params, Params.tryFromValue p.toValue = .ok p) ∧
    (∀ n : Nat, n < 2 ^ 64 →
      RequestID.tryFromValue (RequestID.Number n).toValue = .ok (.Number n)) ∧
    (∀ s, RequestID.tryFromValue (RequestID.String s).toValue = .ok (.String s)) ∧
    (∀ b, RequestID.tryFromValue (RequestID.Binary b).toValue = .ok (.Binary b)) ∧
    (∀ n : Nat, n < 2 ^ 64 →
      MethodID.tryFromValue (MethodID.Number n).toValue = .ok (.Number n)) ∧
    (∀ s, MethodID.tryFromValue (MethodID.String s).toValue = .ok (.String s)) := by
  refine ⟨fun p => ?_, fun n h => ?_, fun s => rfl, fun b => rfl, fun n h => ?_,
    fun s => rfl⟩
  · cases p with
    | Array vs => rfl
    | Named kvs => exact tryFromValue_map_textKeys kvs
  · simp only [RequestID.toValue, RequestID.tryFromValue]
    rw [if_pos (show (0 : Int) ≤ (n : Int) ∧ (n : Int) < 2 ^ 64 from ⟨by omega, by omega⟩)]
    simp
  · simp only [MethodID.toValue, MethodID.tryFromValue]
    rw [if_pos (show (0 : Int) ≤ (n : Int) ∧ (n : Int) < 2 ^ 64 from ⟨by omega, by omega⟩)]
    simp

/-- Witness for C6 at concrete values. -/
theorem c6_to_value_roundtrip_witness :
    Params.tryFromValue (Params.Named [("k", .null)]).toValue =
      .ok (.Named [("k", .null)]) ∧
    RequestID.tryFromValue (RequestID.Number 42).toValue = .ok (.Number 42) ∧
    MethodID.tryFromValue (MethodID.Number 7).toValue = .ok (.Number 7) :=
  ⟨c6_to_value_roundtrip.1 (.Named [("k", .null)]),
   c6_to_value_roundtrip.2.1 42 (by norm_num),
   c6_to_value_roundtrip.2.2.2.2.1 7 (by norm_num)⟩

/-- C7: `Params.is_empty` is true exactly when the positional or named
sequence has zero elements; `into_option` collapses exactly the empty
`Params` to `None` and keeps any non-empty `Params` unchanged; and a
Request built with empty positional params, collapsed through this API,
encodes to exactly the same bytes as a Request built with no params. -/
theorem c7_empty_params :
    (∀ vs : List Value, (Params.Array vs).is_empty = true ↔ vs = []) ∧
    (∀ kvs : List (String × Value), (Params.Named kvs).is_empty = true ↔ kvs = []) ∧
    (∀ p : Params, p.is_empty = true → p.into_option = none) ∧
    (∀ p : Params, p.is_empty = false → p.into_option = some p) ∧
    (∀ m rid, send_request ⟨m, (Params.Array []).into_option, rid⟩ =
      send_request ⟨m, none, rid⟩) := by
  refine ⟨fun vs => ?_, fun kvs => ?_, fun p h => ?_, fun p h => ?_, fun m rid => rfl⟩
  · simp [Params.is_empty, List.isEmpty_iff]
  · simp [Params.is_empty, List.isEmpty_iff]
  · simp [Params.into_option, h]
  · simp [Params.into_option, h]

/-- Witness for C7's collapse behaviour at concrete params. -/
theorem c7_empty_params_witness :
    (Params.Array []).into_option = none ∧
    (Params.Array [.null]).into_option = some (.Array [.null]) :=
  ⟨c7_empty_params.2.2.1 (.Array []) rfl, c7_empty_params.2.2.2.1 (.Array [.null]) rfl⟩

/-- C8: encoding the Request `{method: "hello", params: positional
["one", 2, "three"], req_id: 42}` (the `encode_request` test scenario)
produces at most 38 bytes, and decoding those bytes reproduces exactly the
same Request. -/
theorem c8_concrete_scenario :
    (send_request ⟨.String "hello", some (.Array [.text "one", .int 2, .text "three"]),
        some (.Number 42)⟩).length ≤ 38 ∧
    read_request (send_request ⟨.String "hello",
        some (.Array [.text "one", .int 2, .text "three"]), some (.Number 42)⟩) =
      .ok ⟨.String "hello", some (.Array [.text "one", .int 2, .text "three"]),
        some (.Number 42)⟩ :=
  ⟨by decide, rfl⟩

/-- C9: the conversion of underlying-decoder failures into transport errors
(`From<ciborium::de::Error<E>> for TransportError`): semantic failures keep
the decoder's optional byte offset, syntax failures carry their position,
a recursion-limit violation carries no offset, I/O failures pass through
wrapped in the `Io` transport category, and protocol errors crossing the
transport boundary are wrapped in `Proto`, preserving the underlying
kind. -/
theorem c9_decode_error_conversion :
    (∀ p m, TransportError.fromDeError (.Semantic p m) = .Decode m p) ∧
    (∀ p, TransportError.fromDeError (.SyntaxError p) = .Decode "syntax error" (some p)) ∧
    (TransportError.fromDeError .RecursionLimitExceeded =
      .Decode "recursion limit exceeded" none) ∧
    (∀ e, TransportError.fromDeError (.Io e) = .Io e) ∧
    (∀ e, TransportError.fromProtocolError e = .Proto e) :=
  ⟨fun _ _ => rfl, fun _ => rfl, rfl, fun _ => rfl, fun _ => rfl⟩

theorem fromBytes_error_isDecode (bs : List Nat) (e : TransportError)
    (h : RPCMsg.fromBytes bs = .error e) : ∃ m p, e = .Decode m p := by
  unfold RPCMsg.fromBytes at h
  cases hd : decodeValue bs with
  | none =>
    rw [hd] at h
    simp [TransportError.fromDeError, TransportError.fromIoError] at h
    exact ⟨_, _, h.symm⟩
  | some pr =>
    obtain ⟨v, rest⟩ := pr
    rw [hd] at h
    cases hde : deRPCMsg v with
    | none =>
      simp only [hde] at h
      simp [TransportError.fromDeError, TransportError.fromIoError] at h
      exact ⟨_, _, h.symm⟩
    | some m =>
      simp only [hde] at h
      simp at h

/-- C10: the `ProtocolError::InvalidMessage` variant is never produced by
any operation of the codebase: neither read path ever fails with it,
correctly-tagged content that matches neither message shape is rejected
with a decode-kind transport error from the deserializer, and every
`TryFrom` conversion produces only its own specific error kinds. -/
theorem c10_invalid_message_never :
    (∀ bs, read_request bs ≠ .error (.Proto .InvalidMessage)) ∧
    (∀ bs, read_response bs ≠ .error (.Proto .InvalidMessage)) ∧
    (∀ v, validV v = true → deMsg v = none →
      isDecodeFailure (read_request (encodeV (.tag TAG_ID_RPCV0 v))) = true) ∧
    (∀ v, Params.tryFromValue v ≠ .error .InvalidMessage) ∧
    (∀ v, RequestID.tryFromValue v ≠ .error .InvalidMessage) ∧
    (∀ v, MethodID.tryFromValue v ≠ .error .InvalidMessage) ∧
    (∀ p, to_keyval p ≠ .error .InvalidMessage) ∧
    (∀ m, Request.tryFromRPCMsg m ≠ .error .InvalidMessage) ∧
    (∀ m, Response.tryFromRPCMsg m ≠ .error .InvalidMessage) := by
  refine ⟨fun bs h => ?_, fun bs h => ?_, fun v hv hde => ?_, fun v h => ?_,
    fun v h => ?_, fun v h => ?_, fun p h => ?_, fun m h => ?_, fun m h => ?_⟩
  · unfold read_request at h
    cases hfb : RPCMsg.fromBytes bs with
    | error e =>
      obtain ⟨msg, pos, rfl⟩ := fromBytes_error_isDecode bs e hfb
      simp [hfb] at h
    | ok m =>
      simp only [hfb] at h
      cases hm : m.msg with
      | Request r => simp [Request.tryFromRPCMsg, hm] at h
      | Response r => simp [Request.tryFromRPCMsg, TransportError.fromProtocolError, hm] at h
  · unfold read_response at h
    cases hfb : RPCMsg.fromBytes bs with
    | error e =>
      obtain ⟨msg, pos, rfl⟩ := fromBytes_error_isDecode bs e hfb
      simp [hfb] at h
    | ok m =>
      simp only [hfb] at h
      cases hm : m.msg with
      | Request r => simp [Response.tryFromRPCMsg, TransportError.fromProtocolError, hm] at h
      | Response r => simp [Response.tryFromRPCMsg, hm] at h
  · have hvt : validV (.tag TAG_ID_RPCV0 v) = true := by
      simp only [validV, Bool.and_eq_true, decide_eq_true_eq]
      exact ⟨by norm_num [TAG_ID_RPCV0], hv⟩
    have hdec := decodeValue_encodeV _ hvt []
    rw [List.append_nil] at hdec
    simp [read_request, RPCMsg.fromBytes, hdec, deRPCMsg, hde,
      TransportError.fromDeError, isDecodeFailure]
  · cases v with
    | map m =>
      cases hc : collectKeyvals m with
      | ok l =>
        rw [show Params.tryFromValue (.map m) = (collectKeyvals m).map Params.Named
          from rfl, hc] at h
        simp only [Except.map] at h
        exact Except.noConfusion h
      | error e =>
        have := collectKeyvals_error m e hc
        subst this
        rw [show Params.tryFromValue (.map m) = (collectKeyvals m).map Params.Named
          from rfl, hc] at h
        simp only [Except.map] at h
        exact ProtocolError.noConfusion (Except.error.inj h)
    | arr a => simp [Params.tryFromValue] at h
    | int i => simp [Params.tryFromValue] at h
    | bytes b => simp [Params.tryFromValue] at h
    | float bits => simp [Params.tryFromValue] at h
    | text s => simp [Params.tryFromValue] at h
    | bool b => simp [Params.tryFromValue] at h
    | null => simp [Params.tryFromValue] at h
    | tag n v => simp [Params.tryFromValue] at h
  · cases v with
    | int i =>
      simp only [RequestID.tryFromValue] at h
      split at h <;> simp at h
    | text s => simp [RequestID.tryFromValue] at h
    | bytes b => simp [RequestID.tryFromValue] at h
    | float bits => simp [RequestID.tryFromValue] at h
    | bool b => simp [RequestID.tryFromValue] at h
    | null => simp [RequestID.tryFromValue] at h
    | arr a => simp [RequestID.tryFromValue] at h
    | map m => simp [RequestID.tryFromValue] at h
    | tag n v => simp [RequestID.tryFromValue] at h
  · cases v with
    | int i =>
      simp only [MethodID.tryFromValue] at h
      split at h <;> simp at h
    | text s => simp [MethodID.tryFromValue] at h
    | bytes b => simp [MethodID.tryFromValue] at h
    | float bits => simp [MethodID.tryFromValue] at h
    | bool b => simp [MethodID.tryFromValue] at h
    | null => simp [MethodID.tryFromValue] at h
    | arr a => simp [MethodID.tryFromValue] at h
    | map m => simp [MethodID.tryFromValue] at h
    | tag n v => simp [MethodID.tryFromValue] at h
  · obtain ⟨k, v⟩ := p
    cases k <;> simp [to_keyval] at h
  · obtain ⟨msg⟩ := m
    cases msg <;> simp [Request.tryFromRPCMsg] at h
  · obtain ⟨msg⟩ := m
    cases msg <;> simp [Response.tryFromRPCMsg] at h

/-- Witness for C10's tagged-but-ill-shaped conjunct: a correctly tagged
integer payload (neither a Request nor a Response shape) is rejected with a
decode-kind error. -/
theorem c10_invalid_message_never_witness :
    isDecodeFailure (read_request (encodeV (.tag TAG_ID_RPCV0 (.int 5)))) = true :=
  c10_invalid_message_never.2.2.1 (.int 5) (by decide) rfl

end RPC
